import Mathlib
/-!
Shallow embedding of `src/app.py` (handwritten-recipe transcriber).

Python strings are modelled as `List Char`; image bytes as `List (Fin 256)`.
The two remote model endpoints are modelled as oracle parameters
(`Except`-valued functions), since their replies are external input.
-/

/-- Whitespace predicate used by Python `str.strip()` and the regex class
backslash-s, restricted to the ASCII range. -/
def isPySpace (c : Char) : Bool :=
  c = ' ' || c = '\t' || c = '\n' || c = '\r' || c = '\x0b' || c = '\x0c'

/-- Python `s.strip()`: drop leading and trailing whitespace. -/
def pyStrip (cs : List Char) : List Char :=
  ((cs.dropWhile isPySpace).reverse.dropWhile isPySpace).reverse

/-- Python `s.split('\n')`: always returns at least one (possibly empty) chunk. -/
def splitNl : List Char → List (List Char)
  | [] => [[]]
  | c :: rest =>
    if c = '\n' then [] :: splitNl rest
    else
      match splitNl rest with
      | [] => [[c]]
      | chunk :: t => (c :: chunk) :: t

/-- Python `'\n'.join(chunks)`. -/
def joinNl (chunks : List (List Char)) : List Char :=
  List.intercalate ['\n'] chunks

/-- Python `line.replace('#', '')`: remove every hash character. -/
def removeHash (cs : List Char) : List Char :=
  cs.filter (fun c => c != '#')

/-- Python `line.startswith('#')`. -/
def startsWithHash : List Char → Bool
  | '#' :: _ => true
  | _ => false

/-- A recipe record as built in `main` (src/app.py lines 207-210). -/
structure Recipe where
  title : List Char
  content : List Char
deriving DecidableEq, Repr

/-- RecipeExtractor: the title/content split of src/app.py lines 199-210.
`lines = transcription.split('\n')`; if `lines` is non-empty and its first
element starts with a hash, the title is that line with all hashes removed
and stripped, and the content is the remaining lines joined and stripped;
otherwise the title is the sentinel and the content the whole text. -/
def extract (transcription : List Char) : Recipe :=
  match splitNl transcription with
  | [] => ⟨"Untitled Recipe".toList, transcription⟩
  | first :: rest =>
    if startsWithHash first then
      ⟨pyStrip (removeHash first), pyStrip (joinNl rest)⟩
    else
      ⟨"Untitled Recipe".toList, transcription⟩

/-- The base64 alphabet used by `base64.b64encode` (RFC 4648). -/
def b64Alphabet : List Char :=
  "ABCDEFGHIJKLMNOPQRSTUVWXYZabcdefghijklmnopqrstuvwxyz0123456789+/".toList

/-- Character for a six-bit value. -/
def sextetChar (s : Fin 64) : Char :=
  b64Alphabet.getD s.val 'A'

def lookupIdx (c : Char) : List Char → Nat → Option Nat
  | [], _ => none
  | a :: rest, i => if a = c then some i else lookupIdx c rest (i + 1)

/-- Six-bit value for an alphabet character, `none` for anything else. -/
def charSextet (c : Char) : Option (Fin 64) :=
  match lookupIdx c b64Alphabet 0 with
  | some i => if h : i < 64 then some ⟨i, h⟩ else none
  | none => none

def encB3 (a b c : Fin 256) : List Char :=
  [sextetChar ⟨a.val / 4, by have := a.isLt; omega⟩,
   sextetChar ⟨a.val % 4 * 16 + b.val / 16, by have := b.isLt; omega⟩,
   sextetChar ⟨b.val % 16 * 4 + c.val / 64, by have := c.isLt; omega⟩,
   sextetChar ⟨c.val % 64, by omega⟩]

def encB2 (a b : Fin 256) : List Char :=
  [sextetChar ⟨a.val / 4, by have := a.isLt; omega⟩,
   sextetChar ⟨a.val % 4 * 16 + b.val / 16, by have := b.isLt; omega⟩,
   sextetChar ⟨b.val % 16 * 4, by omega⟩, '=']

def encB1 (a : Fin 256) : List Char :=
  [sextetChar ⟨a.val / 4, by have := a.isLt; omega⟩,
   sextetChar ⟨a.val % 4 * 16, by omega⟩, '=', '=']

/-- ImageCodec: `base64.b64encode(image_data).decode('utf-8')` of
src/app.py line 28, as a function from bytes to the transport characters.
Total and deterministic on arbitrary byte lists. -/
def b64encode : List (Fin 256) → List Char
  | [] => []
  | [a] => encB1 a
  | [a, b] => encB2 a b
  | a :: b :: c :: rest => encB3 a b c ++ b64encode rest

def byte1 (w x : Fin 64) : Fin 256 :=
  ⟨w.val * 4 + x.val / 16, by have := w.isLt; have := x.isLt; omega⟩

def byte2 (x y : Fin 64) : Fin 256 :=
  ⟨x.val % 16 * 16 + y.val / 4, by have := y.isLt; omega⟩

def byte3 (y z : Fin 64) : Fin 256 :=
  ⟨y.val % 4 * 64 + z.val, by have := z.isLt; omega⟩

/-- Decode a final base64 quantum, which may carry padding. -/
def decodeLast4 (w x y z : Char) : Option (List (Fin 256)) :=
  match charSextet w, charSextet x with
  | some sw, some sx =>
    if y = '=' then
      if z = '=' then some [byte1 sw sx] else none
    else
      match charSextet y with
      | some sy =>
        if z = '=' then some [byte1 sw sx, byte2 sx sy]
        else
          match charSextet z with
          | some sz => some [byte1 sw sx, byte2 sx sy, byte3 sy sz]
          | none => none
      | none => none
  | _, _ => none

/-- Decode a non-final base64 quantum: all four characters are data. -/
def decodeFull4 (w x y z : Char) : Option (List (Fin 256)) :=
  match charSextet w, charSextet x, charSextet y, charSextet z with
  | some sw, some sx, some sy, some sz =>
    some [byte1 sw sx, byte2 sx sy, byte3 sy sz]
  | _, _, _, _ => none

/-- Standard base64 decoding (`base64.b64decode` on well-padded input),
the inverse direction of the transport representation. -/
def b64decode : List Char → Option (List (Fin 256))
  | [] => some []
  | w :: x :: y :: z :: rest =>
    if rest.isEmpty then decodeLast4 w x y z
    else
      match decodeFull4 w x y z, b64decode rest with
      | some bs, some tail => some (bs ++ tail)
      | _, _ => none
  | _ => none

/-- The backtick character, delimiter of markdown code fences. -/
def tickChar : Char := Char.ofNat 96

/-- Drop trailing whitespace (the right half of `pyStrip`). -/
def dropTrailingWs (cs : List Char) : List Char :=
  (cs.reverse.dropWhile isPySpace).reverse

/-- True when the characters ahead are optional whitespace followed by a
closing fence, i.e. the regex tail `backslash-s* then three backticks` can
match here (the greedy whitespace run backtracks to the fence, and a fence
character itself is not whitespace, so this is exactly skip-then-fence). -/
def closesFence (cs : List Char) : Bool :=
  decide ((cs.dropWhile isPySpace).take 3 = [tickChar, tickChar, tickChar])

/-- The lazy group `(.*?)` of the fence regex: the shortest prefix after
which the closing fence can match; `none` when no closing fence follows. -/
def interiorAux : List Char → Option (List Char)
  | [] => none
  | c :: rest =>
    if closesFence (c :: rest) then some []
    else (interiorAux rest).map (fun t => c :: t)

/-- Attempt of the regex `三backticks html backslash-s* (.*?) backslash-s*
三backticks` (DOTALL, IGNORECASE) at the current position: literal fence,
case-insensitive `html` tag, greedy whitespace, then the lazy interior. -/
def matchFenceAt (cs : List Char) : Option (List Char) :=
  if cs.take 3 = [tickChar, tickChar, tickChar] ∧
      ((cs.drop 3).take 4).map Char.toLower = "html".toList then
    interiorAux ((cs.drop 7).dropWhile isPySpace)
  else none

/-- `re.search`: try the pattern at each position, leftmost match wins. -/
def searchFence : List Char → Option (List Char)
  | [] => none
  | c :: rest =>
    match matchFenceAt (c :: rest) with
    | some interior => some interior
    | none => searchFence rest

/-- WebsiteSynthesizer payload extraction, src/app.py lines 98-106:
`website_code = reply.strip()`; if the fence regex matches,
`code = match.group(1).strip()`, else `code = website_code`. -/
def extractPayload (reply : List Char) : List Char :=
  match searchFence (pyStrip reply) with
  | some interior => pyStrip interior
  | none => pyStrip reply

/-- The seven characters of the case-normalised fence opening. -/
def fenceOpenChars : List Char := [tickChar, tickChar, tickChar, 'h', 't', 'm', 'l']

/-- The three characters of a fence delimiter. -/
def fenceTicks : List Char := [tickChar, tickChar, tickChar]

/-- An uploaded image as read in `main` (src/app.py lines 159-163). -/
structure UploadedImage where
  image_name : String
  image_data : List (Fin 256)
deriving DecidableEq

/-- One row of the results table: the dict
`{"Image Name": ..., "Transcribed Text": ...}` of `transcribe_image`. -/
structure TranscriptionRow where
  imageName : String
  transcribedText : List Char
deriving DecidableEq

/-- The remote vision endpoint, as an oracle: given the image bytes and the
image name (both appear in the request), it either returns the reply text of
`response.choices[0].message.content` or raises (any exception along the
call, modelled as `Except.error`). -/
def ChatApi : Type :=
  List (Fin 256) → String → Except (List Char) (List Char)

/-- TranscriptionClient: `transcribe_image` of src/app.py lines 15-54.
On success the reply is stripped and paired with the image name; any
exception is caught and converted into a row with the same image name and
empty transcribed text (lines 52-54). -/
def transcribe_image (api : ChatApi) (image_data : List (Fin 256))
    (image_name : String) : TranscriptionRow :=
  match api image_data image_name with
  | Except.ok content => ⟨image_name, pyStrip content⟩
  | Except.error _ => ⟨image_name, []⟩

/-- BatchTranscriber: `main` submits one `transcribe_image` task per uploaded
image to a thread pool and collects every future (src/app.py lines 170-175).
Each task is independent, so the collected results are some permutation of
this per-image map; completion order is quantified in the theorems. -/
def transcribe_batch (api : ChatApi) (images : List UploadedImage) :
    List TranscriptionRow :=
  images.map (fun img => transcribe_image api img.image_data img.image_name)

def demoApi : ChatApi := fun _ _ => Except.ok ("# Cake".toList)

def demoImages : List UploadedImage :=
  [⟨"a.jpg", [⟨0, by omega⟩]⟩, ⟨"b.jpg", [⟨255, by omega⟩]⟩]

def failingApi : ChatApi := fun _ _ => Except.error ("boom".toList)

/-- ASCII-lowered copy of a string, for the IGNORECASE literal search. -/
def toLowerList (cs : List Char) : List Char :=
  cs.map Char.toLower

def startsWithList : List Char → List Char → Bool
  | [], _ => true
  | _ :: _, [] => false
  | p :: ps, c :: cs => p == c && startsWithList ps cs

/-- Literal substring search (what `re.search` does for a pattern without
metacharacters). -/
def containsSub (pat : List Char) : List Char → Bool
  | [] => startsWithList pat []
  | c :: rest => startsWithList pat (c :: rest) || containsSub pat rest

/-- The document-type check of src/app.py line 109:
`re.search(r"<!DOCTYPE html>", code, re.IGNORECASE)`. -/
def hasDoctype (code : List Char) : Bool :=
  containsSub ("<!doctype html>".toList) (toLowerList code)

/-- Observable outcome of `generate_single_page_website`: the returned
string, whether `st.warning` fired (line 110), and whether `st.error`
fired (line 115). -/
structure SynthResult where
  code : List Char
  warned : Bool
  errored : Bool
deriving DecidableEq

/-- WebsiteSynthesizer: `generate_single_page_website` of src/app.py lines
56-116, over an oracle for the o1-mini endpoint reply. On a reply, the
payload is extracted and returned whether or not the doctype check passes
(the check only triggers a warning); on an exception, `st.error` fires and
the empty string is returned. -/
def generate_single_page_website
    (apiResp : Except (List Char) (List Char)) : SynthResult :=
  match apiResp with
  | Except.error _ => ⟨[], false, true⟩
  | Except.ok content =>
    let code := extractPayload content
    ⟨code, !hasDoctype code, false⟩

/-- The Streamlit session state touched by the submit flow:
`st.session_state.transcriptions` and `st.session_state.website_code`. -/
structure SessionState where
  transcriptions : List TranscriptionRow
  website_code : List Char
deriving DecidableEq

/-- The submit branch of `main` (src/app.py lines 156-242) as a state
transformer: transcribe the batch, store the results (line 178), call the
synthesizer, and store its code only when it is non-empty (lines 219-221;
`if website_code:` treats the empty string as failure). -/
def submitFlow (api : ChatApi) (images : List UploadedImage)
    (synthResp : Except (List Char) (List Char)) (st0 : SessionState) :
    SessionState :=
  let results := transcribe_batch api images
  let st1 : SessionState := ⟨results, st0.website_code⟩
  let synth := generate_single_page_website synthResp
  if synth.code ≠ [] then ⟨st1.transcriptions, synth.code⟩ else st1

/-- True when the csv writer must quote the field (QUOTE_MINIMAL: field
contains the delimiter, the quote character, or a line-break character). -/
def needsQuote (f : List Char) : Bool :=
  f.any (fun c => c == ',' || c == '"' || c == '\n' || c == '\r')

/-- Double every quote character (csv quote escaping inside a quoted field). -/
def dupQuotes : List Char → List Char
  | [] => []
  | c :: rest =>
    if c = '"' then '"' :: '"' :: dupQuotes rest else c :: dupQuotes rest

/-- One csv field as `pandas.DataFrame.to_csv` writes it. -/
def escapeField (f : List Char) : List Char :=
  if needsQuote f then '"' :: dupQuotes f ++ ['"'] else f

/-- The header line written by `df.to_csv(index=False)` for the two-column
results frame (src/app.py line 190). -/
def csvHeader : List Char := "Image Name,Transcribed Text".toList

/-- One newline-terminated csv record for a result row. -/
def csvRow (r : TranscriptionRow) : List Char :=
  escapeField r.imageName.toList ++
    ',' :: (escapeField r.transcribedText ++ ['\n'])

/-- The csv text of `df.to_csv(index=False)`: header plus one record per
row, each terminated by a newline. -/
def to_csv (rows : List TranscriptionRow) : List Char :=
  csvHeader ++ ['\n'] ++ (rows.map csvRow).flatten

/-- Count csv records: newlines outside quoted fields, tracking the
in-quotes state (a doubled quote toggles twice, so the automaton reads
escaped quotes correctly for counting). -/
def countRecordsAux : List Char → Bool → Nat
  | [], _ => 0
  | c :: rest, inQ =>
    if c = '"' then countRecordsAux rest (!inQ)
    else if c = '\n' ∧ inQ = false then 1 + countRecordsAux rest inQ
    else countRecordsAux rest inQ

/-- The in-quotes state after scanning a prefix. -/
def quoteStateAux : List Char → Bool → Bool
  | [], b => b
  | c :: rest, b => quoteStateAux rest (if c = '"' then !b else b)

/-- Number of csv records in a csv text whose records end in newline. -/
def csvRecordCount (cs : List Char) : Nat :=
  countRecordsAux cs false

/-- Collapse doubled quotes (csv unescaping of a quoted field interior). -/
def collapseQuotes : List Char → List Char
  | [] => []
  | [c] => [c]
  | c :: d :: rest =>
    if c = '"' ∧ d = '"' then '"' :: collapseQuotes rest
    else c :: collapseQuotes (d :: rest)

/-- Read a csv field back: strip the surrounding quotes and collapse the
doubled quotes when the field is quoted, else take it verbatim. -/
def unescapeField (f : List Char) : List Char :=
  if f.take 1 = ['"'] ∧ f.getLast? = some '"' ∧ 2 ≤ f.length then
    collapseQuotes (f.drop 1).dropLast
  else f

example : extract ("# Title\nline1\nline2".toList) =
    ⟨"Title".toList, "line1\nline2".toList⟩ := by decide

example : extract ("no heading here".toList) =
    ⟨"Untitled Recipe".toList, "no heading here".toList⟩ := by decide

example : extract ("  # Title\nline1".toList) =
    ⟨"Untitled Recipe".toList, "  # Title\nline1".toList⟩ := by decide

example : extract ("#".toList) = ⟨[], [].asString.toList⟩ := by decide

theorem charSextet_sextetChar : ∀ s : Fin 64,
    charSextet (sextetChar s) = some s := by decide

theorem sextetChar_ne_pad : ∀ s : Fin 64, ¬sextetChar s = '=' := by decide

theorem b64encode_eq_nil_iff (bs : List (Fin 256)) :
    b64encode bs = [] ↔ bs = [] := by
  match bs with
  | [] => simp [b64encode]
  | [a] => simp [b64encode, encB1]
  | [a, b] => simp [b64encode, encB2]
  | a :: b :: c :: rest => simp [b64encode, encB3]

/-- C6: base64 round-trip — decoding the transport string produced by
encoding any byte sequence yields exactly that byte sequence. Encoding is a
plain total function, hence deterministic. -/
theorem b64_roundtrip (bs : List (Fin 256)) :
    b64decode (b64encode bs) = some bs := by
  induction bs using b64encode.induct with
  | case1 =>
    simp [b64encode, b64decode]
  | case2 a =>
    have := a.isLt
    simp [b64encode, encB1, b64decode, decodeLast4, charSextet_sextetChar,
      byte1, Fin.ext_iff]
    omega
  | case3 a b =>
    have ha := a.isLt
    have hb := b.isLt
    simp [b64encode, encB2, b64decode, decodeLast4, charSextet_sextetChar,
      sextetChar_ne_pad, byte1, byte2, Fin.ext_iff]
    omega
  | case4 a b c rest ih =>
    have ha := a.isLt
    have hb := b.isLt
    have hc := c.isLt
    by_cases hrest : rest = []
    · subst hrest
      simp [b64encode, encB3, b64decode, decodeLast4, charSextet_sextetChar,
        sextetChar_ne_pad, byte1, byte2, byte3, Fin.ext_iff]
      omega
    · have henc : b64encode rest ≠ [] := by
        rw [ne_eq, b64encode_eq_nil_iff]; exact hrest
      cases hbe : b64encode rest with
      | nil => exact absurd hbe henc
      | cons w tail0 =>
        rw [hbe] at ih
        simp [b64encode, encB3, hbe, b64decode, decodeFull4,
          charSextet_sextetChar, ih, byte1, byte2, byte3, Fin.ext_iff]
        omega

example : extractPayload ("```html\n<div>hi</div>\n```".toList) =
    "<div>hi</div>".toList := by decide

example : extractPayload ("x ```HTML <p>a</p> ``` y".toList) =
    "<p>a</p>".toList := by decide

example : extractPayload ("  plain reply  ".toList) =
    "plain reply".toList := by decide

theorem transcribe_image_imageName (api : ChatApi) (d : List (Fin 256))
    (n : String) : (transcribe_image api d n).imageName = n := by
  unfold transcribe_image
  cases api d n <;> rfl

/-- C1: for every non-empty batch of N uploaded images, collecting the
futures of one `transcribe_image` call per image — in any completion order,
i.e. any permutation `results` of the per-image map — yields exactly N
results, and the multiset of `Image Name` values of the results equals the
multiset of submitted image names. -/
theorem batch_bijection_by_name (api : ChatApi) (images : List UploadedImage)
    (results : List TranscriptionRow) (hne : images ≠ [])
    (hperm : results.Perm (transcribe_batch api images)) :
    results.length = images.length ∧
      (results.map TranscriptionRow.imageName).Perm
        (images.map UploadedImage.image_name) := by
  constructor
  · rw [hperm.length_eq]
    simp [transcribe_batch]
  · refine (hperm.map _).trans ?_
    rw [transcribe_batch, List.map_map]
    refine List.Perm.of_eq (List.map_congr_left ?_)
    intro img _
    exact transcribe_image_imageName api img.image_data img.image_name

theorem batch_bijection_by_name_witness :
    demoImages ≠ [] ∧
      ((transcribe_batch demoApi demoImages).length = demoImages.length ∧
        ((transcribe_batch demoApi demoImages).map
            TranscriptionRow.imageName).Perm
          (demoImages.map UploadedImage.image_name)) :=
  ⟨by decide,
    batch_bijection_by_name demoApi demoImages _ (by decide) (List.Perm.refl _)⟩

/-- C2: if transcribing one image raises, the exception is caught at that
call site and becomes a present row carrying that image's name and empty
transcribed text, and the batch — in any completion order — still returns
one result per submitted image. -/
theorem batch_failure_isolation (api : ChatApi) (images : List UploadedImage)
    (results : List TranscriptionRow) (d : List (Fin 256)) (n : String)
    (e : List Char) (hperm : results.Perm (transcribe_batch api images))
    (hfail : api d n = Except.error e) :
    results.length = images.length ∧
      transcribe_image api d n = ⟨n, []⟩ := by
  constructor
  · rw [hperm.length_eq]
    simp [transcribe_batch]
  · rw [transcribe_image, hfail]

theorem splitNl_ne_nil (cs : List Char) : splitNl cs ≠ [] := by
  cases cs with
  | nil => simp [splitNl]
  | cons c rest =>
    unfold splitNl
    by_cases hc : c = '\n'
    · simp [hc]
    · simp only [if_neg hc]
      cases splitNl rest <;> simp

theorem mem_dropWhile_of_neg {p : Char → Bool} {c : Char} {l : List Char}
    (hmem : c ∈ l) (hc : p c = false) : c ∈ l.dropWhile p := by
  induction l with
  | nil => cases hmem
  | cons a t ih =>
    rw [List.dropWhile_cons]
    by_cases ha : p a = true
    · rw [if_pos ha]
      rcases List.mem_cons.mp hmem with rfl | h
      · rw [hc] at ha; cases ha
      · exact ih h
    · rw [if_neg ha]
      exact hmem

theorem pyStrip_ne_nil_of_mem {c : Char} {l : List Char} (hmem : c ∈ l)
    (hc : isPySpace c = false) : pyStrip l ≠ [] := by
  unfold pyStrip
  intro h
  have h1 : c ∈ l.dropWhile isPySpace := mem_dropWhile_of_neg hmem hc
  have h2 : c ∈ (l.dropWhile isPySpace).reverse := List.mem_reverse.mpr h1
  have h3 : c ∈ (l.dropWhile isPySpace).reverse.dropWhile isPySpace :=
    mem_dropWhile_of_neg h2 hc
  rw [List.reverse_eq_nil_iff] at h
  rw [h] at h3
  cases h3

/-- C3 counterexample: for the input whose first line is `"  # Title"`, the
first line after trimming whitespace begins with a heading marker, yet the
code — which tests `startswith('#')` on the untrimmed line — does not
produce title `"Title"` with content `"line1"`; it falls back to the
sentinel instead. -/
theorem extract_trimmed_heading_cex :
    (pyStrip ((splitNl ("  # Title\nline1".toList)).headD [])).take 1 =
        ['#'] ∧
      extract ("  # Title\nline1".toList) ≠
        ⟨"Title".toList, "line1".toList⟩ ∧
      extract ("  # Title\nline1".toList) =
        ⟨"Untitled Recipe".toList, "  # Title\nline1".toList⟩ := by decide

/-- C3 amended: if the first line of the text starts with a heading marker
(no trimming is applied before the test), extraction returns as title that
line with every hash character removed and surrounding whitespace stripped,
and as content the remaining lines re-joined with newline and with
surrounding whitespace stripped. -/
theorem extract_heading_spec (cs first : List Char) (rest : List (List Char))
    (hsplit : splitNl cs = first :: rest)
    (hhash : startsWithHash first = true) :
    extract cs = ⟨pyStrip (removeHash first), pyStrip (joinNl rest)⟩ := by
  simp [extract, hsplit, hhash]

theorem extract_heading_spec_witness :
    splitNl ("# Title\nline1\nline2".toList) =
        ["# Title".toList, "line1".toList, "line2".toList] ∧
      startsWithHash ("# Title".toList) = true ∧
      extract ("# Title\nline1\nline2".toList) =
        ⟨"Title".toList, "line1\nline2".toList⟩ :=
  ⟨by decide, by decide,
    (extract_heading_spec ("# Title\nline1\nline2".toList) ("# Title".toList)
          ["line1".toList, "line2".toList] (by decide) (by decide)).trans
      (by decide)⟩

/-- C4: if the first line of the text does not begin with a heading marker,
extraction returns the sentinel title `"Untitled Recipe"` and the content is
the input text unchanged. -/
theorem extract_no_heading (cs : List Char)
    (h : startsWithHash ((splitNl cs).headD []) = false) :
    extract cs = ⟨"Untitled Recipe".toList, cs⟩ := by
  obtain ⟨first, rest, hsplit⟩ : ∃ f r, splitNl cs = f :: r := by
    cases hh : splitNl cs with
    | nil => exact absurd hh (splitNl_ne_nil cs)
    | cons f r => exact ⟨f, r, rfl⟩
  rw [hsplit] at h
  simp only [List.headD_cons] at h
  simp [extract, hsplit, h]

theorem extract_no_heading_witness :
    startsWithHash ((splitNl ("no heading here".toList)).headD []) = false ∧
      extract ("no heading here".toList) =
        ⟨"Untitled Recipe".toList, "no heading here".toList⟩ :=
  ⟨by decide, extract_no_heading ("no heading here".toList) (by decide)⟩

/-- C5 counterexample: on the one-line text `"#"` the heading branch is
taken, every hash is removed and the rest stripped, leaving an empty title —
and the sentinel is not substituted. The extracted title is neither
non-empty nor the sentinel, so the claimed invariant fails. -/
theorem extract_empty_title_cex :
    (extract ("#".toList)).title = [] ∧
      (extract ("#".toList)).title ≠ "Untitled Recipe".toList := by decide

/-- C5 amended: the extracted title is non-empty provided that, whenever the
first line begins with a heading marker, that line contains at least one
character that is neither a hash nor whitespace; the sentinel
`"Untitled Recipe"` is used exactly when the first line does not begin with
a hash (a heading line consisting only of hashes and whitespace yields an
empty title). -/
theorem extract_title_nonempty (cs : List Char)
    (h : startsWithHash ((splitNl cs).headD []) = true →
         ∃ c ∈ (splitNl cs).headD [], c ≠ '#' ∧ isPySpace c = false) :
    (extract cs).title ≠ [] := by
  obtain ⟨first, rest, hsplit⟩ : ∃ f r, splitNl cs = f :: r := by
    cases hh : splitNl cs with
    | nil => exact absurd hh (splitNl_ne_nil cs)
    | cons f r => exact ⟨f, r, rfl⟩
  rw [hsplit] at h
  simp only [List.headD_cons] at h
  by_cases hhash : startsWithHash first = true
  · obtain ⟨c, hmem, hne, hws⟩ := h hhash
    have hcmem : c ∈ removeHash first := by
      rw [removeHash]
      exact List.mem_filter.mpr ⟨hmem, by simp [hne]⟩
    have : (extract cs).title = pyStrip (removeHash first) := by
      simp [extract, hsplit, hhash]
    rw [this]
    exact pyStrip_ne_nil_of_mem hcmem hws
  · have : (extract cs).title = "Untitled Recipe".toList := by
      simp [extract, hsplit, hhash]
    rw [this]
    decide

theorem extract_title_nonempty_witness :
    (extract ("# Pancakes\nmix".toList)).title ≠ [] :=
  extract_title_nonempty ("# Pancakes\nmix".toList) (by decide)

theorem batch_failure_isolation_witness :
    (transcribe_batch failingApi demoImages).length = demoImages.length ∧
      transcribe_image failingApi [] "a.jpg" = ⟨"a.jpg", []⟩ :=
  batch_failure_isolation failingApi demoImages _ [] "a.jpg" ("boom".toList)
    (List.Perm.refl _) rfl

theorem dropTrailingWs_eq_nil_iff (l : List Char) :
    dropTrailingWs l = [] ↔ ∀ x ∈ l, isPySpace x = true := by
  unfold dropTrailingWs
  rw [List.reverse_eq_nil_iff, List.dropWhile_eq_nil_iff]
  constructor
  · intro h x hx
    exact h x (List.mem_reverse.mpr hx)
  · intro h x hx
    exact h x (List.mem_reverse.mp hx)

theorem dropTrailingWs_cons_of_ne (c : Char) (l : List Char)
    (h : dropTrailingWs l ≠ []) :
    dropTrailingWs (c :: l) = c :: dropTrailingWs l := by
  unfold dropTrailingWs at h ⊢
  have h0 : l.reverse.dropWhile isPySpace ≠ [] := by
    intro he
    rw [he] at h
    simp at h
  rw [List.reverse_cons, List.dropWhile_append,
    if_neg (by simpa [List.isEmpty_iff] using h0), List.reverse_append]
  simp

theorem dropTrailingWs_cons_of_not_ws (c : Char) (l : List Char)
    (hc : isPySpace c = false) :
    dropTrailingWs (c :: l) = c :: dropTrailingWs l := by
  by_cases h : dropTrailingWs l = []
  · unfold dropTrailingWs at h ⊢
    rw [List.reverse_eq_nil_iff] at h
    rw [List.reverse_cons, List.dropWhile_append,
      if_pos (by simp [List.isEmpty_iff, h]), h,
      List.dropWhile_cons_of_neg (by simp [hc])]
    simp
  · exact dropTrailingWs_cons_of_ne c l h

theorem pyStrip_def (l : List Char) :
    pyStrip l = dropTrailingWs (l.dropWhile isPySpace) := rfl

theorem pyStrip_idem (l : List Char) : pyStrip (pyStrip l) = pyStrip l := by
  have hdw : (pyStrip l).dropWhile isPySpace = pyStrip l := by
    rw [pyStrip_def]
    by_cases h : l.dropWhile isPySpace = []
    · rw [h]
      rfl
    · obtain ⟨d, t0, hdt⟩ := List.exists_cons_of_ne_nil h
      have hdws : isPySpace d = false := by
        have hw := List.head?_dropWhile_not isPySpace l
        rw [hdt] at hw
        simpa using hw
      rw [hdt, dropTrailingWs_cons_of_not_ws d t0 hdws,
        List.dropWhile_cons_of_neg (by simp [hdws])]
  have hdt2 : dropTrailingWs (pyStrip l) = pyStrip l := by
    unfold pyStrip dropTrailingWs
    rw [List.reverse_reverse, List.dropWhile_idempotent]
  rw [pyStrip_def, hdw, hdt2]

theorem pyStrip_subset {x : Char} {l : List Char} (h : x ∈ pyStrip l) :
    x ∈ l := by
  unfold pyStrip at h
  have h1 := List.mem_reverse.mp h
  have h2 := (List.dropWhile_sublist isPySpace).subset h1
  have h3 := List.mem_reverse.mp h2
  exact (List.dropWhile_sublist isPySpace).subset h3

theorem interiorAux_body_close (body tail : List Char)
    (hbody : tickChar ∉ body) :
    interiorAux (body ++ tickChar :: tickChar :: tickChar :: tail) =
      some (dropTrailingWs body) := by
  induction body with
  | nil =>
    have hclose :
        closesFence (tickChar :: tickChar :: tickChar :: tail) = true := by
      unfold closesFence
      rw [List.dropWhile_cons_of_neg (by decide)]
      simp
    simp [interiorAux, hclose, dropTrailingWs]
  | cons c body ih =>
    have hcne : c ≠ tickChar := fun h => hbody (h ▸ List.mem_cons_self c body)
    have hbody2 : tickChar ∉ body := fun h => hbody (List.mem_cons_of_mem c h)
    have ih2 := ih hbody2
    rw [List.cons_append]
    by_cases hc : isPySpace c = true
    · by_cases hall : ∀ x ∈ body, isPySpace x = true
      · have hclose : closesFence
            (c :: (body ++ tickChar :: tickChar :: tickChar :: tail)) =
            true := by
          unfold closesFence
          rw [List.dropWhile_cons_of_pos hc,
            List.dropWhile_append_of_pos hall,
            List.dropWhile_cons_of_neg (by decide)]
          simp
        have hnil : dropTrailingWs (c :: body) = [] := by
          rw [dropTrailingWs_eq_nil_iff]
          intro x hx
          rcases List.mem_cons.mp hx with rfl | hx2
          · exact hc
          · exact hall x hx2
        simp [interiorAux, hclose, hnil]
      · have hne : dropTrailingWs body ≠ [] := by
          rw [ne_eq, dropTrailingWs_eq_nil_iff]
          exact hall
        have hdrop : body.dropWhile isPySpace ≠ [] := by
          rw [ne_eq, List.dropWhile_eq_nil_iff]
          exact hall
        obtain ⟨d, t0, hdt⟩ := List.exists_cons_of_ne_nil hdrop
        have hdws : isPySpace d = false := by
          have hw := List.head?_dropWhile_not isPySpace body
          rw [hdt] at hw
          simpa using hw
        have hdmem : d ∈ body :=
          (List.dropWhile_sublist isPySpace).subset
            (hdt.symm ▸ List.mem_cons_self d t0)
        have hdtick : d ≠ tickChar := fun h => hbody2 (h ▸ hdmem)
        have hnclose : closesFence
            (c :: (body ++ tickChar :: tickChar :: tickChar :: tail)) =
            false := by
          unfold closesFence
          rw [List.dropWhile_cons_of_pos hc, List.dropWhile_append, hdt,
            if_neg (by simp), List.cons_append]
          apply decide_eq_false
          intro hEq
          simp only [List.take_succ_cons, List.cons.injEq] at hEq
          exact hdtick hEq.1
        simp only [interiorAux, hnclose, Bool.false_eq_true, if_false, ih2,
          Option.map_some']
        rw [dropTrailingWs_cons_of_ne c body hne]
    · have hcws : isPySpace c = false := by simpa using hc
      have hnclose : closesFence
          (c :: (body ++ tickChar :: tickChar :: tickChar :: tail)) =
          false := by
        unfold closesFence
        rw [List.dropWhile_cons_of_neg (by simp [hcws])]
        apply decide_eq_false
        intro hEq
        simp only [List.take_succ_cons, List.cons.injEq] at hEq
        exact hcne hEq.1
      simp only [interiorAux, hnclose, Bool.false_eq_true, if_false, ih2,
        Option.map_some']
      rw [dropTrailingWs_cons_of_not_ws c body hcws]

theorem matchFenceAt_open (tail : List Char) :
    matchFenceAt (fenceOpenChars ++ tail) =
      interiorAux (tail.dropWhile isPySpace) := rfl

theorem searchFence_cons (c : Char) (rest : List Char) :
    searchFence (c :: rest) =
      match matchFenceAt (c :: rest) with
      | some interior => some interior
      | none => searchFence rest := rfl

theorem matchFenceAt_none_of_head_ne {c : Char} (rest : List Char)
    (hc : c ≠ tickChar) : matchFenceAt (c :: rest) = none := by
  unfold matchFenceAt
  rw [if_neg]
  intro hcond
  obtain ⟨h1, _⟩ := hcond
  simp only [List.take_succ_cons, List.cons.injEq] at h1
  exact hc h1.1

theorem searchFence_none (l : List Char) (h : tickChar ∉ l) :
    searchFence l = none := by
  induction l with
  | nil => rfl
  | cons c rest ih =>
    have hc : c ≠ tickChar := fun he => h (he ▸ List.mem_cons_self c rest)
    rw [searchFence_cons, matchFenceAt_none_of_head_ne rest hc]
    exact ih (fun he => h (List.mem_cons_of_mem c he))

theorem dropWhile_ws_append_cons (pre Y : List Char) (c : Char)
    (hc : isPySpace c = false) :
    (pre ++ c :: Y).dropWhile isPySpace =
      pre.dropWhile isPySpace ++ c :: Y := by
  rw [List.dropWhile_append]
  by_cases hp : (pre.dropWhile isPySpace).isEmpty
  · rw [if_pos hp, List.dropWhile_cons_of_neg (by simp [hc])]
    rw [List.isEmpty_iff] at hp
    rw [hp, List.nil_append]
  · rw [if_neg hp]

theorem dropTrailingWs_append_cons (A0 post : List Char) (c : Char)
    (hc : isPySpace c = false) :
    dropTrailingWs (A0 ++ c :: post) = A0 ++ c :: dropTrailingWs post := by
  unfold dropTrailingWs
  have h1 : (post.reverse ++ [c]).dropWhile isPySpace =
      post.reverse.dropWhile isPySpace ++ [c] := by
    rw [List.dropWhile_append]
    by_cases hp : (post.reverse.dropWhile isPySpace).isEmpty
    · rw [if_pos hp, List.dropWhile_cons_of_neg (by simp [hc])]
      rw [List.isEmpty_iff] at hp
      rw [hp, List.nil_append]
    · rw [if_neg hp]
  have h2 : (A0 ++ c :: post).reverse = (post.reverse ++ [c]) ++ A0.reverse :=
    by simp
  rw [h2, List.dropWhile_append, if_neg (by simp [h1]), h1]
  simp

theorem searchFence_append_pre (pre rest0 : List Char)
    (hpre : tickChar ∉ pre) :
    searchFence (pre ++ tickChar :: rest0) =
      searchFence (tickChar :: rest0) := by
  induction pre with
  | nil => rfl
  | cons c ps ih =>
    have hc : c ≠ tickChar := fun he => hpre (he ▸ List.mem_cons_self c ps)
    rw [List.cons_append, searchFence_cons,
      matchFenceAt_none_of_head_ne _ hc]
    exact ih (fun he => hpre (List.mem_cons_of_mem c he))

theorem pyStrip_decomp (pre body post : List Char) :
    pyStrip (pre ++ (fenceOpenChars ++ (body ++ (fenceTicks ++ post)))) =
      pre.dropWhile isPySpace ++
        (fenceOpenChars ++ (body ++ (fenceTicks ++ dropTrailingWs post))) := by
  rw [pyStrip_def]
  have e1 : pre ++ (fenceOpenChars ++ (body ++ (fenceTicks ++ post))) =
      pre ++ tickChar ::
        ([tickChar, tickChar, 'h', 't', 'm', 'l'] ++
          (body ++ (fenceTicks ++ post))) := by
    simp [fenceOpenChars]
  rw [e1, dropWhile_ws_append_cons _ _ _ (by decide)]
  have e2 : pre.dropWhile isPySpace ++ tickChar ::
      ([tickChar, tickChar, 'h', 't', 'm', 'l'] ++
        (body ++ (fenceTicks ++ post))) =
      (pre.dropWhile isPySpace ++
          (fenceOpenChars ++ (body ++ [tickChar, tickChar]))) ++
        tickChar :: post := by
    simp [fenceOpenChars, fenceTicks]
  rw [e2, dropTrailingWs_append_cons _ _ _ (by decide)]
  simp [fenceOpenChars, fenceTicks]

/-- C7: payload extraction in `generate_single_page_website`. If the model
reply contains a fenced block tagged `html` around a fence-free body — with
arbitrary fence-free prose before it and an arbitrary tail after it — the
returned payload is the body with the fence markers and surrounding prose
excluded (the interior modulo the whitespace the regex and `.strip()`
absorb); if the reply contains no fence markers at all, the returned
payload is the whole reply unchanged modulo trimming. -/
theorem synthesize_payload_extraction (pre body post reply : List Char)
    (hpre : tickChar ∉ pre) (hbody : tickChar ∉ body)
    (hreply : tickChar ∉ reply) :
    extractPayload
        (pre ++ "```html".toList ++ body ++ "```".toList ++ post) =
        pyStrip body ∧
      extractPayload reply = pyStrip reply := by
  constructor
  · have e0 : pre ++ "```html".toList ++ body ++ "```".toList ++ post =
        pre ++ (fenceOpenChars ++ (body ++ (fenceTicks ++ post))) := by
      rw [show ("```html".toList : List Char) = fenceOpenChars from by decide,
        show ("```".toList : List Char) = fenceTicks from by decide]
      simp [List.append_assoc]
    rw [e0]
    unfold extractPayload
    rw [pyStrip_decomp]
    have hpre1 : tickChar ∉ pre.dropWhile isPySpace :=
      fun h => hpre ((List.dropWhile_sublist isPySpace).subset h)
    have hnt : tickChar ∉ body.dropWhile isPySpace :=
      fun h => hbody ((List.dropWhile_sublist isPySpace).subset h)
    have hm : matchFenceAt
        (fenceOpenChars ++ (body ++ (fenceTicks ++ dropTrailingWs post))) =
        some (pyStrip body) := by
      rw [matchFenceAt_open]
      have e3 : body ++ (fenceTicks ++ dropTrailingWs post) =
          body ++ tickChar ::
            (tickChar :: tickChar :: dropTrailingWs post) := by
        simp [fenceTicks]
      rw [e3, dropWhile_ws_append_cons _ _ _ (by decide)]
      exact interiorAux_body_close _ (dropTrailingWs post) hnt
    have e4 : fenceOpenChars ++ (body ++ (fenceTicks ++ dropTrailingWs post)) =
        tickChar :: ([tickChar, tickChar, 'h', 't', 'm', 'l'] ++
          (body ++ (fenceTicks ++ dropTrailingWs post))) := by
      simp [fenceOpenChars]
    rw [e4] at hm
    rw [e4, searchFence_append_pre _ _ hpre1, searchFence_cons, hm]
    exact pyStrip_idem body
  · have hnone : searchFence (pyStrip reply) = none :=
      searchFence_none _ (fun h => hreply (pyStrip_subset h))
    unfold extractPayload
    rw [hnone]

theorem synthesize_payload_extraction_witness :
    (tickChar ∉ "Sure, here is the code:\n".toList) ∧
      (tickChar ∉ "\n<p>hi</p>\n".toList) ∧
      (tickChar ∉ "no fences".toList) ∧
      (extractPayload
            ("Sure, here is the code:\n".toList ++ "```html".toList ++
              "\n<p>hi</p>\n".toList ++ "```".toList ++ " done".toList) =
          pyStrip ("\n<p>hi</p>\n".toList) ∧
        extractPayload ("no fences".toList) = pyStrip ("no fences".toList)) :=
  ⟨by decide, by decide, by decide,
    synthesize_payload_extraction ("Sure, here is the code:\n".toList)
      ("\n<p>hi</p>\n".toList) (" done".toList) ("no fences".toList)
      (by decide) (by decide) (by decide)⟩

/-- C8: when the extracted payload lacks a doctype declaration, the
synthesizer surfaces a warning but still returns the payload unchanged, and
does not fail. -/
theorem synthesize_doctype_soft_warning (content : List Char)
    (h : hasDoctype (extractPayload content) = false) :
    (generate_single_page_website (Except.ok content)).warned = true ∧
      (generate_single_page_website (Except.ok content)).code =
        extractPayload content ∧
      (generate_single_page_website (Except.ok content)).errored = false := by
  simp [generate_single_page_website, h]

theorem synthesize_doctype_soft_warning_witness :
    hasDoctype (extractPayload ("<p>no doctype</p>".toList)) = false ∧
      ((generate_single_page_website
            (Except.ok ("<p>no doctype</p>".toList))).warned = true ∧
        (generate_single_page_website
            (Except.ok ("<p>no doctype</p>".toList))).code =
          extractPayload ("<p>no doctype</p>".toList) ∧
        (generate_single_page_website
            (Except.ok ("<p>no doctype</p>".toList))).errored = false) :=
  ⟨by decide,
    synthesize_doctype_soft_warning ("<p>no doctype</p>".toList) (by decide)⟩

/-- C9: when the synthesis endpoint call fails, the synthesizer reports the
error and returns no website payload, and the submit flow leaves the
already-computed transcription results stored and the previous website code
untouched: the failure is terminal only for the synthesis step. -/
theorem synthesize_failure_isolated (api : ChatApi)
    (images : List UploadedImage) (e : List Char) (st0 : SessionState) :
    (generate_single_page_website (Except.error e)).errored = true ∧
      (generate_single_page_website (Except.error e)).code = [] ∧
      submitFlow api images (Except.error e) st0 =
        ⟨transcribe_batch api images, st0.website_code⟩ := by
  refine ⟨rfl, rfl, ?_⟩
  simp [submitFlow, generate_single_page_website]

theorem quoteStateAux_append (xs ys : List Char) (b : Bool) :
    quoteStateAux (xs ++ ys) b = quoteStateAux ys (quoteStateAux xs b) := by
  induction xs generalizing b with
  | nil => rfl
  | cons c rest ih =>
    simp only [List.cons_append, quoteStateAux]
    exact ih _

theorem countRecordsAux_append (xs ys : List Char) (b : Bool) :
    countRecordsAux (xs ++ ys) b =
      countRecordsAux xs b + countRecordsAux ys (quoteStateAux xs b) := by
  induction xs generalizing b with
  | nil => simp [countRecordsAux, quoteStateAux]
  | cons c rest ih =>
    simp only [List.cons_append, countRecordsAux, quoteStateAux]
    by_cases hc : c = '"'
    · simp [hc, ih]
    · by_cases hn : c = '\n' ∧ b = false
      · simp [hc, hn, ih]
        omega
      · simp [hc, hn, ih]

theorem no_special_scan (f : List Char) (b : Bool)
    (h : ∀ c ∈ f, c ≠ '"' ∧ c ≠ '\n') :
    countRecordsAux f b = 0 ∧ quoteStateAux f b = b := by
  induction f generalizing b with
  | nil => exact ⟨rfl, rfl⟩
  | cons c rest ih =>
    obtain ⟨hq, hn⟩ := h c (List.mem_cons_self c rest)
    have hrest : ∀ x ∈ rest, x ≠ '"' ∧ x ≠ '\n' :=
      fun x hx => h x (List.mem_cons_of_mem c hx)
    obtain ⟨ih1, ih2⟩ := ih b hrest
    constructor
    · simp [countRecordsAux, hq, hn, ih1]
    · simp [quoteStateAux, hq, ih2]

theorem dupQuotes_scan (f : List Char) :
    countRecordsAux (dupQuotes f) true = 0 ∧
      quoteStateAux (dupQuotes f) true = true := by
  induction f with
  | nil => exact ⟨rfl, rfl⟩
  | cons c rest ih =>
    by_cases hc : c = '"'
    · simp [dupQuotes, hc, countRecordsAux, quoteStateAux, ih]
    · simp [dupQuotes, hc, countRecordsAux, quoteStateAux, ih]

theorem escapeField_scan (f : List Char) :
    countRecordsAux (escapeField f) false = 0 ∧
      quoteStateAux (escapeField f) false = false := by
  by_cases hq : needsQuote f = true
  · obtain ⟨hc0, hs0⟩ := dupQuotes_scan f
    simp only [escapeField, hq, if_true]
    constructor
    · simp [countRecordsAux, countRecordsAux_append, quoteStateAux_append,
        hc0, hs0, quoteStateAux]
    · simp [quoteStateAux, quoteStateAux_append, hs0]
  · have hq2 : needsQuote f = false := by simpa using hq
    have hall : ∀ c ∈ f, c ≠ '"' ∧ c ≠ '\n' := by
      intro c hc
      have hp := List.any_eq_false.mp hq2 c hc
      simp only [Bool.or_eq_true, not_or, beq_iff_eq] at hp
      exact ⟨hp.1.1.2, hp.1.2⟩
    simp only [escapeField, hq2, Bool.false_eq_true, if_false]
    exact no_special_scan f false hall

theorem csvRow_scan (r : TranscriptionRow) :
    countRecordsAux (csvRow r) false = 1 ∧
      quoteStateAux (csvRow r) false = false := by
  obtain ⟨h1, h2⟩ := escapeField_scan (r.imageName.toList)
  obtain ⟨h3, h4⟩ := escapeField_scan r.transcribedText
  have ec : ∀ X : List Char,
      countRecordsAux (',' :: X) false = countRecordsAux X false := by
    intro X
    rw [countRecordsAux, if_neg (by decide), if_neg (by simp)]
  have es : ∀ X : List Char,
      quoteStateAux (',' :: X) false = quoteStateAux X false := by
    intro X
    rw [quoteStateAux, if_neg (by decide)]
  have e3 : countRecordsAux (['\n'] : List Char) false = 1 := rfl
  unfold csvRow
  constructor
  · rw [countRecordsAux_append, h1, h2, ec, countRecordsAux_append, h3, h4,
      e3]
  · rw [quoteStateAux_append, h2, es, quoteStateAux_append, h4]
    rfl

theorem csv_flatten_scan (rows : List TranscriptionRow) :
    countRecordsAux ((rows.map csvRow).flatten) false = rows.length ∧
      quoteStateAux ((rows.map csvRow).flatten) false = false := by
  induction rows with
  | nil => exact ⟨rfl, rfl⟩
  | cons r rs ih =>
    obtain ⟨hr1, hr2⟩ := csvRow_scan r
    simp only [List.map_cons, List.flatten_cons]
    constructor
    · rw [countRecordsAux_append, hr1, hr2, ih.1]
      simp [List.length_cons]
      omega
    · rw [quoteStateAux_append, hr2, ih.2]

theorem dupQuotes_eq_nil_iff (l : List Char) : dupQuotes l = [] ↔ l = [] := by
  cases l with
  | nil => simp [dupQuotes]
  | cons c rest =>
    by_cases hc : c = '"' <;> simp [dupQuotes, hc]

theorem collapse_dup (f : List Char) : collapseQuotes (dupQuotes f) = f := by
  induction f with
  | nil => rfl
  | cons c rest ih =>
    by_cases hc : c = '"'
    · subst hc
      simp only [dupQuotes, if_pos rfl]
      simp [collapseQuotes, ih]
    · simp only [dupQuotes, if_neg hc]
      cases hd : dupQuotes rest with
      | nil =>
        have hr : rest = [] := (dupQuotes_eq_nil_iff rest).mp hd
        subst hr
        rfl
      | cons d xs =>
        have hcond : ¬(c = '"' ∧ d = '"') := fun hh => hc hh.1
        simp only [collapseQuotes, if_neg hcond]
        rw [← hd, ih]

theorem unescape_escape (f : List Char) : unescapeField (escapeField f) = f := by
  by_cases hq : needsQuote f = true
  · simp only [escapeField, hq, if_true]
    unfold unescapeField
    rw [if_pos]
    · have e : (('"' :: dupQuotes f) ++ ['"']).drop 1 =
          dupQuotes f ++ ['"'] := rfl
      rw [e, List.dropLast_concat, collapse_dup]
    · refine ⟨rfl, ?_, ?_⟩
      · exact List.getLast?_concat _
      · simp
  · have hq2 : needsQuote f = false := by simpa using hq
    simp only [escapeField, hq2, Bool.false_eq_true, if_false]
    unfold unescapeField
    rw [if_neg]
    rintro ⟨h1, -, -⟩
    cases f with
    | nil => simp at h1
    | cons c r =>
      simp only [List.take_succ_cons, List.take_zero, List.cons.injEq,
        and_true] at h1
      subst h1
      have : needsQuote ('"' :: r) = true :=
        List.any_eq_true.mpr ⟨'"', List.mem_cons_self _ _, by decide⟩
      rw [this] at hq2
      cases hq2

/-- C10: the CSV export (header `Image Name,Transcribed Text` plus one
newline-terminated record per result row) contains exactly K+1 csv records
for K rows — counting newlines outside quoted fields, since embedded
newlines and commas are escaped by quoting — and the field escaping is
lossless: unescaping an escaped field returns the original text. -/
theorem csv_export_shape (rows : List TranscriptionRow) :
    csvRecordCount (to_csv rows) = rows.length + 1 ∧
      ∀ f : List Char, unescapeField (escapeField f) = f := by
  constructor
  · obtain ⟨hf1, hf2⟩ := csv_flatten_scan rows
    have hh : countRecordsAux csvHeader false = 0 ∧
        quoteStateAux csvHeader false = false := by decide
    have hhn : countRecordsAux (csvHeader ++ ['\n']) false = 1 := by decide
    have hsn : quoteStateAux (csvHeader ++ ['\n']) false = false := by decide
    unfold csvRecordCount to_csv
    rw [countRecordsAux_append, hhn, hsn, hf1]
    omega
  · exact unescape_escape
